import Mathlib

/-!
Verification of the delegation-poker room synchronization engine.

The definitions below are a shallow embedding of the room page client
(`src/app/room/[roomId]/page.tsx` and its later revision) and of the
helpers in `src/lib/utils.ts`.  Firestore documents are modelled as plain
records, the document store as a `Store` value, server timestamps as
explicit `Int` millisecond arguments, and each command handler as a
function from the client's local state and the store to the optional
post-write store (`none` = the handler returned without issuing a write).
-/

namespace DelegationPoker

/-- Room lifecycle status, from the `RoomData` interface:
`status: "voting" | "revealed" | "ended"`. -/
inductive Status where
  | voting
  | revealed
  | ended
deriving DecidableEq, Repr

/-- A participant document `rooms/{roomId}/participants/{participantId}`.
Fields from the `Participant` interface plus the `updatedAt` field that the
write paths set.  Timestamps are modelled as milliseconds (`Int`),
`none` standing for an absent/null field. -/
structure ParticipantDoc where
  pid : String
  name : String
  selectedCard : Option Nat
  online : Bool
  lastSeenAt : Option Int
  updatedAt : Option Int
deriving DecidableEq, Repr

/-- The room document `rooms/{roomId}`, from the `RoomData` interface plus
the `endedAt` field written by `handleEndRoom`. -/
structure RoomDoc where
  status : Status
  hostId : String
  topic : Option String
  createdAtMs : Int
  endedAtMs : Option Int
deriving DecidableEq, Repr

/-- The slice of the document store relevant to one room: the room document
and its participants subcollection. -/
structure Store where
  room : RoomDoc
  participants : List ParticipantDoc
deriving DecidableEq, Repr

/-- The client-side state the handlers close over: the route's `roomId`,
the caller's `participantId`, the locally-remembered host id
(`getHostId(roomId)`, `none` when localStorage has no entry), the
subscribed `roomData` snapshot, the local `selectedCard` mirror and the
`isSubmitting` re-entrancy flag. -/
structure ClientState where
  roomId : String
  participantId : String
  localHostId : Option String
  roomData : Option RoomDoc
  selectedCard : Option Nat
  isSubmitting : Bool
deriving DecidableEq, Repr

/-- `isHost = roomData ? getHostId(roomId) === roomData.hostId : false`.
A JavaScript `null === string` comparison is false, which the
`Option` equality reproduces. -/
def isHost (c : ClientState) : Bool :=
  match c.roomData with
  | some rd => decide (c.localHostId = some rd.hostId)
  | none => false

/-- `isVoting = roomData?.status === "voting"`. -/
def isVoting (c : ClientState) : Bool :=
  match c.roomData with
  | some rd => decide (rd.status = Status.voting)
  | none => false

/-- `isRevealed = roomData?.status === "revealed"`. -/
def isRevealed (c : ClientState) : Bool :=
  match c.roomData with
  | some rd => decide (rd.status = Status.revealed)
  | none => false

/-- `handleReveal`: `if (!roomId || !isHost) return;` then
`updateDoc(roomRef, { status: "revealed" })`.  The update touches only the
`status` field of the room document. -/
def handleReveal (c : ClientState) (s : Store) : Option Store :=
  if c.roomId = "" ∨ isHost c = false then none
  else some { s with room := { s.room with status := Status.revealed } }

/-- `handleNextRound`: host guard, `confirm(...)` dialog, then a single
`writeBatch` that sets the room's `status` to `"voting"` and every
participant document's `selectedCard` to `null` (stamping `updatedAt`),
committed atomically. -/
def handleNextRound (c : ClientState) (confirmed : Bool) (now : Int)
    (s : Store) : Option Store :=
  if c.roomId = "" ∨ isHost c = false then none
  else if confirmed = false then none
  else some
    { room := { s.room with status := Status.voting },
      participants := s.participants.map fun p =>
        { p with selectedCard := none, updatedAt := some now } }

/-- The observable store after running `handleNextRound` against a store
whose batch commit may fail: a failed commit (or a rejected invocation)
leaves the store untouched, a successful commit installs the whole batch. -/
def handleNextRoundRun (c : ClientState) (confirmed commitOk : Bool)
    (now : Int) (s : Store) : Store :=
  match handleNextRound c confirmed now s with
  | none => s
  | some s' => if commitOk then s' else s

/-- `handleEndRoom`: host guard, `window.confirm(...)`, then
`updateDoc(roomRef, { status: "ended", endedAt: serverTimestamp() })`. -/
def handleEndRoom (c : ClientState) (ok : Bool) (now : Int)
    (s : Store) : Option Store :=
  if c.roomId = "" ∨ isHost c = false then none
  else if ok = false then none
  else some { s with room :=
    { s.room with status := Status.ended, endedAtMs := some now } }

/-- `handleCardSelect(value)`: `if (!roomId || isSubmitting) return;
if (!isVoting) return;` then `newCard = selectedCard === value ? null :
value` is written to the caller's own participant document (with
`updatedAt`) and mirrored into the local `selectedCard` state. -/
def handleCardSelect (c : ClientState) (value : Nat) (now : Int)
    (s : Store) : Option (ClientState × Store) :=
  if c.roomId = "" ∨ c.isSubmitting = true then none
  else if isVoting c = false then none
  else
    let newCard : Option Nat :=
      if c.selectedCard = some value then none else some value
    some ({ c with selectedCard := newCard },
      { s with participants := s.participants.map fun p =>
          if p.pid = c.participantId then
            { p with selectedCard := newCard, updatedAt := some now }
          else p })

/-- Two successive `handleCardSelect` invocations with the same value and
no intervening changes: the second call runs on the client state and store
produced by the first. -/
def selectTwice (c : ClientState) (value : Nat) (t1 t2 : Int)
    (s : Store) : Option (ClientState × Store) :=
  match handleCardSelect c value t1 s with
  | none => none
  | some (c1, s1) => handleCardSelect c1 value t2 s1

/-- Keyed lookup in the participants subcollection
(`ps.find(p => p.pid === pid)`). -/
def findParticipant : List ParticipantDoc → String → Option ParticipantDoc
  | [], _ => none
  | p :: rest, pid => if p.pid = pid then some p else findParticipant rest pid

/-- A keyed `updateDoc` on one participant document: every document whose
id matches is replaced by its update, the rest are untouched. -/
def updateParticipant (ps : List ParticipantDoc) (pid : String)
    (f : ParticipantDoc → ParticipantDoc) : List ParticipantDoc :=
  ps.map fun p => if p.pid = pid then f p else p

/-- `checkAndAdd`: if the caller's participant document is absent, create
it (`name`, `selectedCard: null`, `online: true`, fresh `lastSeenAt` and
`updatedAt`); if present, `updateDoc` only `online: true` and a fresh
`lastSeenAt`. -/
def checkAndAdd (c : ClientState) (userName : String) (now : Int)
    (s : Store) : Option Store :=
  if c.roomId = "" ∨ c.participantId = "" ∨ userName = "" then none
  else
    match findParticipant s.participants c.participantId with
    | none => some { s with participants := s.participants ++
        [⟨c.participantId, userName, none, true, some now, some now⟩] }
    | some _ => some { s with participants :=
        (updateParticipant s.participants c.participantId fun p =>
          { p with online := true, lastSeenAt := some now }) }

/-- The presence-staleness correction applied inside the participants
`onSnapshot` callback: `let isOnline = online; if (lastSeenAt) { if (now -
lastSeenMs > OFFLINE_THRESHOLD_MS) isOnline = false } else if (!online)
isOnline = false`. -/
def effectiveOnline (now threshold : Int) (p : ParticipantDoc) : Bool :=
  match p.lastSeenAt with
  | some lastSeenMs =>
      if now - lastSeenMs > threshold then false else p.online
  | none => if p.online = false then false else p.online

/-- `CARD_VALUES = [1, 2, 3, 4, 5, 6, 7]`. -/
def CARD_VALUES : List Nat := [1, 2, 3, 4, 5, 6, 7]

/-- Lookup in an association list of `(value, count)` pairs with a `0`
default, mirroring `counts[v] ?? 0`. -/
def countOf : List (Nat × Nat) → Nat → Nat
  | [], _ => 0
  | (k, n) :: rest, v => if k = v then n else countOf rest v

/-- `counts[v] = (counts[v] ?? 0) + 1`: increment the entry for `v`,
creating it when absent (a JavaScript object acquires a new key). -/
def bump (v : Nat) : List (Nat × Nat) → List (Nat × Nat)
  | [] => [(v, 1)]
  | (k, n) :: rest =>
      if k = v then (k, n + 1) :: rest else (k, n) :: bump v rest

/-- One step of the `tallyVotes` loop body. -/
def tallyStep (acc : List (Nat × Nat)) (p : ParticipantDoc) :
    List (Nat × Nat) :=
  match p.selectedCard with
  | some v => bump v acc
  | none => acc

/-- `Object.fromEntries(CARD_VALUES.map(v => [v, 0]))`. -/
def initCounts : List (Nat × Nat) := CARD_VALUES.map fun v => (v, 0)

/-- `tallyVotes`: zero-initialised counts over `CARD_VALUES`, then one
increment per participant with a non-null `selectedCard`. -/
def tallyVotes (ps : List ParticipantDoc) : List (Nat × Nat) :=
  ps.foldl tallyStep initCounts

/-- Number of participants whose `selectedCard` equals `v` (the spec's
reading of `counts[v]`). -/
def votesFor (ps : List ParticipantDoc) (v : Nat) : Nat :=
  ps.countP fun p => decide (p.selectedCard = some v)

/-- Number of participants with a non-null `selectedCard`. -/
def votedCount (ps : List ParticipantDoc) : Nat :=
  ps.countP fun p => p.selectedCard.isSome

/-- Stable insertion of one `(value, count)` pair into a list sorted by
descending count: the new element passes an existing one only when its
count is strictly greater, which reproduces the stability of
`Array.prototype.sort` under the comparator `(a, b) => b.count - a.count`. -/
def insertDesc (x : Nat × Nat) : List (Nat × Nat) → List (Nat × Nat)
  | [] => [x]
  | y :: ys => if x.2 ≥ y.2 then x :: y :: ys else y :: insertDesc x ys

/-- Stable sort by descending count. -/
def sortByCountDesc : List (Nat × Nat) → List (Nat × Nat)
  | [] => []
  | x :: xs => insertDesc x (sortByCountDesc xs)

/-- `ranked = [...CARD_VALUES].map(v => ({value: v, count: counts[v] ?? 0}))
.sort((a, b) => b.count - a.count)`. -/
def ranked (ps : List ParticipantDoc) : List (Nat × Nat) :=
  sortByCountDesc (CARD_VALUES.map fun v => (v, countOf (tallyVotes ps) v))

/-- Lookup in the value-to-rank association list (`rankMap.get(v)`). -/
def lookupRank : List (Nat × Nat) → Nat → Option Nat
  | [], _ => none
  | (k, n) :: rest, v => if k = v then some n else lookupRank rest v

/-- The `ranked.forEach((item, index) => { if (!rankMap.has(item.value))
rankMap.set(item.value, index + 1) })` loop. -/
def rankMapAux : List (Nat × Nat) → Nat → List (Nat × Nat) →
    List (Nat × Nat)
  | [], _, m => m
  | (v, _) :: rest, i, m =>
      rankMapAux rest (i + 1)
        (if (lookupRank m v).isSome then m else m ++ [(v, i + 1)])

/-- The value-to-rank map built from the sorted tally. -/
def rankMap (ps : List ParticipantDoc) : List (Nat × Nat) :=
  rankMapAux (ranked ps) 0 []

/-- `rankMap.get(v)` for the tally of `ps`. -/
def rankOf (ps : List ParticipantDoc) (v : Nat) : Option Nat :=
  lookupRank (rankMap ps) v

/-- The reveal control is rendered only inside the `isHost &&` block and
only when `isVoting` (the `投票を締め切る` button). -/
def revealRendered (c : ClientState) : Bool := isHost c && isVoting c

/-- The next-round control is rendered only for the host and only when
`isRevealed` (the `同じテーマで再投票` button). -/
def nextRoundRendered (c : ClientState) : Bool := isHost c && isRevealed c

/-- The end-room control is rendered only for the host and only when
`isRevealed` (the `このテーマを終了する` button). -/
def endRoomRendered (c : ClientState) : Bool := isHost c && isRevealed c

/-- `reveal` as dispatchable from the UI: the click handler can only fire
while its button is rendered. -/
def revealCommand (c : ClientState) (s : Store) : Option Store :=
  if revealRendered c then handleReveal c s else none

/-- `resetRound` as dispatchable from the UI. -/
def nextRoundCommand (c : ClientState) (confirmed : Bool) (now : Int)
    (s : Store) : Option Store :=
  if nextRoundRendered c then handleNextRound c confirmed now s else none

/-- `endRoom` as dispatchable from the UI. -/
def endRoomCommand (c : ClientState) (ok : Bool) (now : Int)
    (s : Store) : Option Store :=
  if endRoomRendered c then handleEndRoom c ok now s else none

/-- The store observed after a UI-dispatched `reveal` (no write leaves it
unchanged). -/
def stepReveal (c : ClientState) (s : Store) : Store :=
  (revealCommand c s).getD s

/-- The store observed after a UI-dispatched `resetRound`. -/
def stepNextRound (c : ClientState) (confirmed : Bool) (now : Int)
    (s : Store) : Store :=
  (nextRoundCommand c confirmed now s).getD s

/-- The store observed after a UI-dispatched `endRoom`. -/
def stepEndRoom (c : ClientState) (ok : Bool) (now : Int)
    (s : Store) : Store :=
  (endRoomCommand c ok now s).getD s

/-- Every participant's `selectedCard` is null. -/
def allCleared (ps : List ParticipantDoc) : Bool :=
  ps.all fun p => p.selectedCard.isNone

/-- A participant's vote, when present, is one of the seven card values. -/
def cardInRange (p : ParticipantDoc) : Bool :=
  match p.selectedCard with
  | none => true
  | some v => decide (v ∈ CARD_VALUES)

/-! Concrete fixtures used by counterexamples and witnesses. -/

/-- An ended room hosted by `h1`. -/
def roomEnded : RoomDoc := ⟨Status.ended, "h1", some "t", 0, some 50⟩

/-- Store holding only the ended room. -/
def storeEnded : Store := ⟨roomEnded, []⟩

/-- The host's client while observing the ended room. -/
def hostClientEnded : ClientState :=
  ⟨"R1", "p1", some "h1", some roomEnded, none, false⟩

/-- A room in the `voting` state. -/
def roomVoting : RoomDoc := ⟨Status.voting, "h1", some "t", 0, none⟩

/-- A participant who has voted card 3. -/
def pVoted : ParticipantDoc := ⟨"p1", "Alice", some 3, true, some 0, some 0⟩

/-- Store with the voting room and one voted participant. -/
def storeVoting : Store := ⟨roomVoting, [pVoted]⟩

/-- The host's client while the room is voting. -/
def hostClientVoting : ClientState :=
  ⟨"R1", "p1", some "h1", some roomVoting, some 3, false⟩

/-- A room in the `revealed` state. -/
def roomRevealed : RoomDoc := ⟨Status.revealed, "h1", some "t", 0, none⟩

/-- Store with the revealed room and one voted participant. -/
def storeRevealed : Store := ⟨roomRevealed, [pVoted]⟩

/-- The host's client while the room is revealed. -/
def hostClientRevealed : ClientState :=
  ⟨"R1", "p1", some "h1", some roomRevealed, some 3, false⟩

/-- A participant voting card 1. -/
def voterA : ParticipantDoc := ⟨"pA", "A", some 1, true, some 0, some 0⟩

/-- A participant voting card 2. -/
def voterB : ParticipantDoc := ⟨"pB", "B", some 2, true, some 0, some 0⟩

/-- A non-host participant's client (their vote is card 3). -/
def voterClient : ClientState :=
  ⟨"R1", "p1", none, some roomVoting, some 3, false⟩

/-- A participant record with `online: true` but no `lastSeenAt` ever
recorded. -/
def ghostParticipant : ParticipantDoc := ⟨"pG", "G", none, true, none, none⟩

/-- A client whose locally-remembered host id (`zz`) differs from the
room's `hostId`. -/
def nonHostClient : ClientState :=
  ⟨"R1", "p2", some "zz", some roomRevealed, none, false⟩

/-- C2 (code_bug evaluation): on the two-participant list where cards 1
and 2 each receive exactly one vote, the code's rank map assigns rank 1 to
card 1 and rank 2 to card 2 even though their counts are equal, so
equal-count cards do not share a rank. -/
theorem rankMap_tie_bug :
    countOf (tallyVotes [voterA, voterB]) 1 = 1 ∧
    countOf (tallyVotes [voterA, voterB]) 2 = 1 ∧
    rankOf [voterA, voterB] 1 = some 1 ∧
    rankOf [voterA, voterB] 2 = some 2 :=
  ⟨rfl, rfl, rfl, rfl⟩

/-- C4 (counterexample): a participant with `online: true` and no
`lastSeenAt` is treated as effectively online, although the claim requires
effective presence to be false whenever no heartbeat was recorded within
the threshold, including when `lastSeenAt` is absent. -/
theorem effectiveOnline_absent_heartbeat_cex :
    ghostParticipant.lastSeenAt = none ∧
    ghostParticipant.online = true ∧
    effectiveOnline 100000 30000 ghostParticipant = true :=
  ⟨rfl, rfl, rfl⟩

/-- C4 (amended): the derived effective-online value is true iff the
stored `online` flag is true and, whenever `lastSeenAt` is present,
`now - lastSeenAt` is at most the threshold; a record with no `lastSeenAt`
keeps its stored `online` flag. -/
theorem effectiveOnline_eq (now threshold : Int) (p : ParticipantDoc) :
    effectiveOnline now threshold p =
      (p.online && (match p.lastSeenAt with
        | some t => decide (now - t ≤ threshold)
        | none => true)) := by
  unfold effectiveOnline
  cases h : p.lastSeenAt with
  | none => cases hb : p.online <;> simp [hb]
  | some t =>
      cases hb : p.online <;> by_cases hc : now - t > threshold <;>
        simp [hb, hc] <;> omega

/-- C7: `handleCardSelect` issues its write exactly when the room status
is `voting`, no write by the same participant is in flight
(`isSubmitting` is false), and the route has a room id. -/
theorem selectCard_write_gating (c : ClientState) (value : Nat) (now : Int)
    (s : Store) :
    (handleCardSelect c value now s).isSome =
      (!decide (c.roomId = "") && !c.isSubmitting && isVoting c) := by
  unfold handleCardSelect
  by_cases h1 : c.roomId = "" <;> by_cases h2 : c.isSubmitting = true <;>
    by_cases h3 : isVoting c = false <;>
      simp [h1, h2, h3, Bool.not_eq_true, Bool.not_eq_false]

/-- C9: when `handleReveal` issues its write the room's status becomes
`revealed` and nothing else changes: `hostId`, `topic`, `createdAt`,
`endedAt` and every participant document are untouched. -/
theorem reveal_frame (c : ClientState) (s s' : Store)
    (h : handleReveal c s = some s') :
    s'.room.status = Status.revealed ∧
    s'.room.hostId = s.room.hostId ∧
    s'.room.topic = s.room.topic ∧
    s'.room.createdAtMs = s.room.createdAtMs ∧
    s'.room.endedAtMs = s.room.endedAtMs ∧
    s'.participants = s.participants := by
  unfold handleReveal at h
  split at h
  · exact absurd h (by simp)
  · injection h with h'
    subst h'
    exact ⟨rfl, rfl, rfl, rfl, rfl, rfl⟩

/-- C9 (witness): the frame theorem applied to the host revealing the
concrete voting room. -/
theorem reveal_frame_witness :
    (⟨⟨Status.revealed, "h1", some "t", 0, none⟩, [pVoted]⟩ : Store).room.status
        = Status.revealed ∧
    (⟨⟨Status.revealed, "h1", some "t", 0, none⟩, [pVoted]⟩ : Store).room.hostId
        = storeVoting.room.hostId ∧
    (⟨⟨Status.revealed, "h1", some "t", 0, none⟩, [pVoted]⟩ : Store).room.topic
        = storeVoting.room.topic ∧
    (⟨⟨Status.revealed, "h1", some "t", 0, none⟩, [pVoted]⟩ : Store).room.createdAtMs
        = storeVoting.room.createdAtMs ∧
    (⟨⟨Status.revealed, "h1", some "t", 0, none⟩, [pVoted]⟩ : Store).room.endedAtMs
        = storeVoting.room.endedAtMs ∧
    (⟨⟨Status.revealed, "h1", some "t", 0, none⟩, [pVoted]⟩ : Store).participants
        = storeVoting.participants :=
  reveal_frame hostClientVoting storeVoting
    ⟨⟨Status.revealed, "h1", some "t", 0, none⟩, [pVoted]⟩ rfl

/-- C8: a caller whose locally-remembered host identifier differs from the
room's `hostId` gets a silent no-op from `handleReveal`,
`handleNextRound` and `handleEndRoom`: no write is issued. -/
theorem nonHost_rejected (c : ClientState) (rd : RoomDoc) (s : Store)
    (conf ok : Bool) (now : Int)
    (hrd : c.roomData = some rd) (hne : c.localHostId ≠ some rd.hostId) :
    handleReveal c s = none ∧ handleNextRound c conf now s = none ∧
    handleEndRoom c ok now s = none := by
  have hh : isHost c = false := by
    unfold isHost; rw [hrd]; simp [hne]
  exact ⟨by simp [handleReveal, hh], by simp [handleNextRound, hh],
    by simp [handleEndRoom, hh]⟩

/-- C8 (witness): the rejection theorem applied to the concrete non-host
client in the revealed room. -/
theorem nonHost_rejected_witness :
    nonHostClient.roomData = some roomRevealed ∧
    nonHostClient.localHostId ≠ some roomRevealed.hostId ∧
    (handleReveal nonHostClient storeRevealed = none ∧
     handleNextRound nonHostClient true 0 storeRevealed = none ∧
     handleEndRoom nonHostClient true 0 storeRevealed = none) :=
  ⟨rfl, by decide,
    nonHost_rejected nonHostClient roomRevealed storeRevealed true true 0
      rfl (by decide)⟩

/-- C1 (counterexample): with the room already `ended`, the host-guarded
`handleReveal` still issues a write and moves the status to `revealed`:
the handler functions themselves never consult the room status. -/
theorem handlers_ignore_status_cex :
    storeEnded.room.status = Status.ended ∧
    (handleReveal hostClientEnded storeEnded).isSome = true ∧
    ((handleReveal hostClientEnded storeEnded).getD storeEnded).room.status
      = Status.revealed :=
  ⟨rfl, rfl, rfl⟩

/-- C1 (amended): the state-machine gating holds for the UI-dispatched
commands (control rendered, then handler run): `reveal` leaves the store
unchanged unless the status is exactly `voting` and can only move the
status to `revealed`; `resetRound` and `endRoom` leave the store unchanged
unless the status is exactly `revealed`; and in the `ended` status none of
the three commands changes the store. -/
theorem hostCommands_status_gating (c : ClientState) (s : Store)
    (conf ok : Bool) (now : Int) (hsync : c.roomData = some s.room) :
    (s.room.status ≠ Status.voting → stepReveal c s = s) ∧
    ((stepReveal c s).room.status = Status.revealed ∨ stepReveal c s = s) ∧
    (s.room.status ≠ Status.revealed →
      stepNextRound c conf now s = s ∧ stepEndRoom c ok now s = s) ∧
    (s.room.status = Status.ended →
      stepReveal c s = s ∧ stepNextRound c conf now s = s ∧
        stepEndRoom c ok now s = s) := by
  have hv : isVoting c = decide (s.room.status = Status.voting) := by
    unfold isVoting; rw [hsync]
  have hr : isRevealed c = decide (s.room.status = Status.revealed) := by
    unfold isRevealed; rw [hsync]
  have hA : s.room.status ≠ Status.voting → stepReveal c s = s := by
    intro h
    simp [stepReveal, revealCommand, revealRendered, hv, h]
  have hB : (stepReveal c s).room.status = Status.revealed ∨
      stepReveal c s = s := by
    by_cases hrend : revealRendered c = true
    · by_cases hg : c.roomId = "" ∨ isHost c = false
      · right; simp [stepReveal, revealCommand, hrend, handleReveal, hg]
      · left; simp [stepReveal, revealCommand, hrend, handleReveal, hg]
    · right; simp [stepReveal, revealCommand, hrend]
  have hC : s.room.status ≠ Status.revealed →
      stepNextRound c conf now s = s ∧ stepEndRoom c ok now s = s := by
    intro h
    constructor
    · simp [stepNextRound, nextRoundCommand, nextRoundRendered, hr, h]
    · simp [stepEndRoom, endRoomCommand, endRoomRendered, hr, h]
  refine ⟨hA, hB, hC, fun h => ?_⟩
  have h1 : s.room.status ≠ Status.voting := by rw [h]; decide
  have h2 : s.room.status ≠ Status.revealed := by rw [h]; decide
  exact ⟨hA h1, (hC h2).1, (hC h2).2⟩

/-- C1 (witness): the gating theorem applied to the host observing the
concrete ended room: none of the UI-dispatched commands changes it. -/
theorem hostCommands_status_gating_witness :
    hostClientEnded.roomData = some storeEnded.room ∧
    (stepReveal hostClientEnded storeEnded = storeEnded ∧
     stepNextRound hostClientEnded true 0 storeEnded = storeEnded ∧
     stepEndRoom hostClientEnded true 0 storeEnded = storeEnded) :=
  ⟨rfl,
    (hostCommands_status_gating hostClientEnded storeEnded true true 0
      rfl).2.2.2 rfl⟩

/-- C3: when `handleNextRound` builds its batch, the batched post-state
has status `voting` with every participant's `selectedCard` null, and the
store observed through the (possibly failing) atomic commit is either the
untouched old store or that complete post-state, never a mix. -/
theorem resetRound_batch_atomic (c : ClientState) (conf commitOk : Bool)
    (now : Int) (s s' : Store)
    (h : handleNextRound c conf now s = some s') :
    s'.room.status = Status.voting ∧
    allCleared s'.participants = true ∧
    (handleNextRoundRun c conf commitOk now s = s ∨
     handleNextRoundRun c conf commitOk now s = s') := by
  have hrun : handleNextRoundRun c conf commitOk now s = s ∨
      handleNextRoundRun c conf commitOk now s = s' := by
    unfold handleNextRoundRun
    rw [h]
    cases commitOk <;> simp
  unfold handleNextRound at h
  split at h
  · exact absurd h (by simp)
  · split at h
    · exact absurd h (by simp)
    · injection h with h'
      refine ⟨by rw [← h'], ?_, hrun⟩
      rw [← h']
      simp [allCleared, List.all_map, Function.comp]

/-- C3 (witness): the atomicity theorem applied to the host resetting the
concrete revealed room with one voted participant. -/
theorem resetRound_batch_atomic_witness :
    (⟨⟨Status.voting, "h1", some "t", 0, none⟩,
      [⟨"p1", "Alice", none, true, some 0, some 5⟩]⟩ : Store).room.status
        = Status.voting ∧
    allCleared (⟨⟨Status.voting, "h1", some "t", 0, none⟩,
      [⟨"p1", "Alice", none, true, some 0, some 5⟩]⟩ : Store).participants
        = true ∧
    (handleNextRoundRun hostClientRevealed true true 5 storeRevealed
        = storeRevealed ∨
     handleNextRoundRun hostClientRevealed true true 5 storeRevealed =
       ⟨⟨Status.voting, "h1", some "t", 0, none⟩,
        [⟨"p1", "Alice", none, true, some 0, some 5⟩]⟩) :=
  resetRound_batch_atomic hostClientRevealed true true 5 storeRevealed
    ⟨⟨Status.voting, "h1", some "t", 0, none⟩,
     [⟨"p1", "Alice", none, true, some 0, some 5⟩]⟩ rfl

/-- C6 (counterexample): starting from a selection already equal to the
clicked value (card 3), two successive `handleCardSelect 3` calls end with
`selectedCard = 3`, not null: the first call clears, the second re-selects. -/
theorem selectCard_double_cex :
    voterClient.selectedCard = some 3 ∧
    ((selectTwice voterClient 3 1 2 storeVoting).map fun r =>
      r.1.selectedCard) = some (some 3) ∧
    ((selectTwice voterClient 3 1 2 storeVoting).map fun r =>
      r.1.selectedCard) ≠ some none :=
  ⟨rfl, rfl, by decide⟩

/-- C6 (amended): `handleCardSelect` toggles as claimed (equal selection
clears to null, different selection overwrites), and two successive calls
restore null exactly when the initial selection differs from the clicked
value; when it already equals it, the pair of calls ends back at that
value. -/
theorem selectCard_toggle (c : ClientState) (value : Nat) (t1 t2 : Int)
    (s : Store) (hid : c.roomId ≠ "") (hsub : c.isSubmitting = false)
    (hvote : isVoting c = true) :
    ((handleCardSelect c value t1 s).map fun r => r.1.selectedCard) =
      some (if c.selectedCard = some value then none else some value) ∧
    (c.selectedCard = some value →
      ((selectTwice c value t1 t2 s).map fun r => r.1.selectedCard) =
        some (some value)) ∧
    (c.selectedCard ≠ some value →
      ((selectTwice c value t1 t2 s).map fun r => r.1.selectedCard) =
        some none) := by
  obtain ⟨rd, hrd, hst⟩ :
      ∃ rd, c.roomData = some rd ∧ rd.status = Status.voting := by
    unfold isVoting at hvote
    cases hc : c.roomData with
    | none => rw [hc] at hvote; cases hvote
    | some rd =>
        rw [hc] at hvote
        exact ⟨rd, rfl, by simpa using hvote⟩
  refine ⟨?_, ?_, ?_⟩
  · simp [handleCardSelect, hid, hsub, isVoting, hrd, hst]
  · intro hsel
    simp [selectTwice, handleCardSelect, hid, hsub, isVoting, hrd, hst, hsel]
  · intro hsel
    simp [selectTwice, handleCardSelect, hid, hsub, isVoting, hrd, hst, hsel]

/-- C6 (witness): the toggle theorem applied to the concrete voter whose
current selection is card 3 clicking card 3. -/
theorem selectCard_toggle_witness :
    voterClient.roomId ≠ "" ∧ voterClient.isSubmitting = false ∧
    isVoting voterClient = true ∧
    (((handleCardSelect voterClient 3 1 storeVoting).map fun r =>
        r.1.selectedCard) =
      some (if voterClient.selectedCard = some 3 then none else some 3) ∧
     (voterClient.selectedCard = some 3 →
       ((selectTwice voterClient 3 1 2 storeVoting).map fun r =>
         r.1.selectedCard) = some (some 3)) ∧
     (voterClient.selectedCard ≠ some 3 →
       ((selectTwice voterClient 3 1 2 storeVoting).map fun r =>
         r.1.selectedCard) = some none)) :=
  ⟨by decide, rfl, rfl,
    selectCard_toggle voterClient 3 1 2 storeVoting (by decide) rfl rfl⟩

/-- Updating one keyed participant document leaves the lookup of that key
pointing at the updated record, provided the update keeps the document id. -/
theorem findParticipant_update (ps : List ParticipantDoc) (pid : String)
    (f : ParticipantDoc → ParticipantDoc) (hf : ∀ p, (f p).pid = p.pid) :
    findParticipant (updateParticipant ps pid f) pid =
      (findParticipant ps pid).map f := by
  induction ps with
  | nil => rfl
  | cons p rest ih =>
      unfold updateParticipant at *
      by_cases hp : p.pid = pid
      · simp [findParticipant, hp, hf]
      · simp [findParticipant, hp, ih]

/-- C10: when `checkAndAdd` finds the caller's participant record already
present, the refreshed record keeps the stored `name`, `selectedCard` and
`updatedAt` and only sets `online := true` with a fresh `lastSeenAt`; the
room document is untouched. -/
theorem rejoin_preserves_vote (c : ClientState) (userName : String)
    (now : Int) (s s' : Store) (p0 : ParticipantDoc)
    (hfind : findParticipant s.participants c.participantId = some p0)
    (h : checkAndAdd c userName now s = some s') :
    findParticipant s'.participants c.participantId =
      some { p0 with online := true, lastSeenAt := some now } ∧
    s'.room = s.room := by
  unfold checkAndAdd at h
  split at h
  · exact absurd h (by simp)
  · rw [hfind] at h
    injection h with h'
    subst h'
    refine ⟨?_, rfl⟩
    rw [findParticipant_update s.participants c.participantId
      (fun p => { p with online := true, lastSeenAt := some now })
      (fun p => rfl), hfind]
    rfl

/-- C10 (witness): the rejoin theorem applied to the concrete voter
rejoining the voting room: the vote `3` and the name survive, only
`online` and `lastSeenAt` are refreshed. -/
theorem rejoin_preserves_vote_witness :
    findParticipant storeVoting.participants voterClient.participantId
      = some pVoted ∧
    (findParticipant
        (⟨roomVoting, [⟨"p1", "Alice", some 3, true, some 9, some 0⟩]⟩ :
          Store).participants voterClient.participantId =
      some ⟨"p1", "Alice", some 3, true, some 9, some 0⟩ ∧
     (⟨roomVoting, [⟨"p1", "Alice", some 3, true, some 9, some 0⟩]⟩ :
        Store).room = storeVoting.room) :=
  ⟨rfl,
    rejoin_preserves_vote voterClient "Alice" 9 storeVoting
      ⟨roomVoting, [⟨"p1", "Alice", some 3, true, some 9, some 0⟩]⟩
      pVoted rfl rfl⟩

/-- Incrementing key `v` raises its looked-up count by one (creating the
key when absent). -/
theorem countOf_bump_self (acc : List (Nat × Nat)) (v : Nat) :
    countOf (bump v acc) v = countOf acc v + 1 := by
  induction acc with
  | nil => simp [bump, countOf]
  | cons kn rest ih =>
      obtain ⟨k, n⟩ := kn
      by_cases h : k = v <;> simp [bump, countOf, h, ih]

/-- Incrementing key `w` leaves the looked-up count of any other key
unchanged. -/
theorem countOf_bump_other (acc : List (Nat × Nat)) (v w : Nat)
    (h : v ≠ w) : countOf (bump w acc) v = countOf acc v := by
  induction acc with
  | nil => simp [bump, countOf, Ne.symm h]
  | cons kn rest ih =>
      obtain ⟨k, n⟩ := kn
      by_cases hk : k = w
      · subst hk
        simp [bump, countOf, Ne.symm h]
      · simp [bump, countOf, hk, ih]

/-- One participant prepended to the list adds one vote for their card and
nothing else. -/
theorem votesFor_cons (p : ParticipantDoc) (rest : List ParticipantDoc)
    (v : Nat) :
    votesFor (p :: rest) v =
      votesFor rest v + (if p.selectedCard = some v then 1 else 0) := by
  unfold votesFor
  rw [List.countP_cons]
  simp

/-- The tally fold adds each participant's vote to the running counts. -/
theorem countOf_foldl (ps : List ParticipantDoc) (acc : List (Nat × Nat))
    (v : Nat) :
    countOf (ps.foldl tallyStep acc) v = countOf acc v + votesFor ps v := by
  induction ps generalizing acc with
  | nil => simp [votesFor]
  | cons p rest ih =>
      rw [List.foldl_cons, ih, votesFor_cons]
      cases hc : p.selectedCard with
      | none => simp [tallyStep, hc]
      | some w =>
          by_cases hw : w = v
          · subst hw
            simp only [tallyStep, hc, countOf_bump_self]
            simp
            omega
          · rw [show tallyStep acc p = bump w acc by simp [tallyStep, hc],
              countOf_bump_other acc v w (fun hh => hw hh.symm)]
            simp [hw]

/-- The zero-initialised counts map every key to zero. -/
theorem countOf_initCounts (v : Nat) : countOf initCounts v = 0 := by
  simp [initCounts, CARD_VALUES, countOf]

/-- Summing a pointwise sum of two functions over a list splits. -/
theorem sum_map_split (l : List Nat) (f g : Nat → Nat) :
    (l.map fun a => f a + g a).sum = (l.map f).sum + (l.map g).sum := by
  induction l with
  | nil => rfl
  | cons a l ih =>
      simp [ih]
      omega

/-- Summing the indicator of a card value over `CARD_VALUES` gives one. -/
theorem indicator_sum (w : Nat) (hw : w ∈ CARD_VALUES) :
    (CARD_VALUES.map fun v => if w = v then 1 else 0).sum = 1 := by
  simp only [CARD_VALUES] at hw
  simp only [List.mem_cons, List.not_mem_nil, or_false] at hw
  rcases hw with rfl | rfl | rfl | rfl | rfl | rfl | rfl <;> decide

/-- When every vote is in range, summing per-value vote counts over the
seven card values counts exactly the participants with a non-null vote. -/
theorem sum_votesFor (ps : List ParticipantDoc)
    (h : ps.all cardInRange = true) :
    (CARD_VALUES.map fun v => votesFor ps v).sum = votedCount ps := by
  induction ps with
  | nil => decide
  | cons p rest ih =>
      rw [List.all_cons, Bool.and_eq_true] at h
      obtain ⟨h1, h2⟩ := h
      simp only [votesFor_cons]
      rw [sum_map_split CARD_VALUES (fun v => votesFor rest v)
        (fun v => if p.selectedCard = some v then 1 else 0), ih h2]
      unfold votedCount
      rw [List.countP_cons]
      cases hc : p.selectedCard with
      | none => simp [hc, votedCount]
      | some w =>
          have hw : w ∈ CARD_VALUES := by
            unfold cardInRange at h1
            rw [hc] at h1
            simpa using h1
          simp only [hc, Option.some.injEq, Option.isSome_some,
            if_true, cond_true]
          rw [indicator_sum w hw]

/-- C5: for vote lists whose cards are null or in 1..7, `tallyVotes`
counts, for each of the seven card values, exactly the participants who
selected it, and those seven counts sum to the number of participants
with a non-null `selectedCard`. -/
theorem tally_counts_correct (ps : List ParticipantDoc)
    (h : ps.all cardInRange = true) :
    (CARD_VALUES.all fun v =>
      countOf (tallyVotes ps) v == votesFor ps v) = true ∧
    (CARD_VALUES.map fun v => countOf (tallyVotes ps) v).sum
      = votedCount ps := by
  have hpt : ∀ v, countOf (tallyVotes ps) v = votesFor ps v := by
    intro v
    rw [tallyVotes, countOf_foldl, countOf_initCounts]
    omega
  constructor
  · rw [List.all_eq_true]
    intro v _
    simp [hpt v]
  · have hmap : (CARD_VALUES.map fun v => countOf (tallyVotes ps) v) =
        CARD_VALUES.map fun v => votesFor ps v := by
      simp only [hpt]
    rw [hmap]
    exact sum_votesFor ps h

/-- C5 (witness): the tally theorem applied to the concrete two-voter
list (cards 1 and 2, both in range). -/
theorem tally_counts_correct_witness :
    [voterA, voterB].all cardInRange = true ∧
    ((CARD_VALUES.all fun v =>
        countOf (tallyVotes [voterA, voterB]) v ==
          votesFor [voterA, voterB] v) = true ∧
     (CARD_VALUES.map fun v =>
        countOf (tallyVotes [voterA, voterB]) v).sum
       = votedCount [voterA, voterB]) :=
  ⟨by decide, tally_counts_correct [voterA, voterB] (by decide)⟩

end DelegationPoker
